import Mathlib

/-!
Verification of the discord-exporter collection pipeline.

The definitions below are a shallow embedding of the Go source
(`main.go`: `countChannelMessages`, `parseExcludedChannels`, `loadConfig`,
`updateMemberCount`, `updateMessageCount`, `processChannel`,
`startMetricsCollector`).  Network effects are abstracted as explicit
response sequences or oracles; the Prometheus gauge registry is modelled
as a function from label to optional value; the goroutine/semaphore
worker pool is modelled as a small-step transition system.
-/

namespace DiscordExporter

/-- Mirrors the Go constant `maxMessagesPerRequest = 100`. -/
def maxMessagesPerRequest : Nat := 100

/-- Mirrors the Go constant `maxMembersPerRequest = 1000`. -/
def maxMembersPerRequest : Nat := 1000

/-- Mirrors the Go constant `maxConcurrentChannels = 5`. -/
def maxConcurrentChannels : Nat := 5

/-- A Discord message; the pagination loop only ever inspects the `ID`
field of the last message of a page (`messages[messageCount-1].ID`). -/
structure Message where
  id : String
deriving DecidableEq, Repr

/-- One upstream response to a `session.ChannelMessages` call: either an
error or a page of messages. -/
abbrev PageResponse := Except Unit (List Message)

/-- The loop body of `countChannelMessages`.  The upstream is abstracted
as the sequence of responses to the successive `ChannelMessages`
requests (the cursor passed in each request is determined by the
previous page, so the requests form a single chain; only the
responses affect the returned count).  `acc` is `totalCount`.

The Go function returns `(int, error)`; we return that pair, with
`Option Unit` standing for the Go `error` (`none` = nil error).
The outer `Option` is the fuel of the model: `none` means the loop
demanded more responses than the given sequence provides, i.e. on an
upstream that keeps answering with full pages the loop never returns. -/
def countLoop : List PageResponse → Nat → Option (Nat × Option Unit)
  | [], _ => none
  | Except.error _ :: _, _ => some (0, some ())
  | Except.ok msgs :: rest, acc =>
    let messageCount := msgs.length
    let total := acc + messageCount
    if messageCount < maxMessagesPerRequest then some (total, none)
    else countLoop rest total

/-- `countChannelMessages` from the source: run the pagination loop with
`totalCount = 0` against the channel's response sequence. -/
def countChannelMessages (responses : List PageResponse) : Option (Nat × Option Unit) :=
  countLoop responses 0

/-- Running the loop past a block of full (length ≥ 100) pages
accumulates their lengths and continues with the rest. -/
lemma countLoop_skip_full (front : List (List Message)) (tail : List PageResponse)
    (acc : Nat) (hfront : ∀ p ∈ front, ¬ p.length < maxMessagesPerRequest) :
    countLoop (front.map Except.ok ++ tail) acc =
      countLoop tail (acc + (front.map List.length).sum) := by
  induction front generalizing acc with
  | nil => simp
  | cons p ps ih =>
    have hp : ¬ p.length < maxMessagesPerRequest := hfront p (List.mem_cons_self p ps)
    have hps : ∀ q ∈ ps, ¬ q.length < maxMessagesPerRequest := fun q hq =>
      hfront q (List.mem_cons_of_mem p hq)
    simp only [List.map_cons, List.cons_append, countLoop, if_neg hp, List.append_eq]
    rw [ih _ hps, List.sum_cons, Nat.add_assoc]

/-- If every page of a list has length exactly 100, the sum of the
lengths is 100 times the number of pages. -/
lemma sum_lengths_of_full (front : List (List Message))
    (hfront : ∀ p ∈ front, p.length = maxMessagesPerRequest) :
    (front.map List.length).sum = maxMessagesPerRequest * front.length := by
  induction front with
  | nil => simp
  | cons p ps ih =>
    have hp : p.length = maxMessagesPerRequest := hfront p (List.mem_cons_self p ps)
    have hps : ∀ q ∈ ps, q.length = maxMessagesPerRequest := fun q hq =>
      hfront q (List.mem_cons_of_mem p hq)
    simp only [List.map_cons, List.sum_cons, List.length_cons, ih hps, hp]
    ring

/-- Claim C2: for every sequence of pages in which each page before the
last has exactly 100 entries and the last page has r entries with
0 ≤ r < 100, `countChannelMessages` returns success with total equal to
100 times the number of full pages plus r, terminating on the page whose
length is strictly less than 100 (the responses after it are never
requested, so the success pattern has no trailing responses). -/
theorem countChannelMessages_full_then_short (front : List (List Message))
    (last : List Message)
    (hfront : ∀ p ∈ front, p.length = maxMessagesPerRequest)
    (hlast : last.length < maxMessagesPerRequest) :
    countChannelMessages (front.map Except.ok ++ [Except.ok last]) =
      some (maxMessagesPerRequest * front.length + last.length, none) := by
  have hfull : ∀ p ∈ front, ¬ p.length < maxMessagesPerRequest := fun p hp => by
    rw [hfront p hp]; exact lt_irrefl _
  unfold countChannelMessages
  rw [countLoop_skip_full front _ 0 hfull, sum_lengths_of_full front hfront]
  simp [countLoop, if_pos hlast]

/-- Witness for C2: two full pages then a page of 30 give total 230. -/
theorem countChannelMessages_full_then_short_witness :
    countChannelMessages
        (([List.replicate 100 ⟨"a"⟩, List.replicate 100 ⟨"b"⟩] :
            List (List Message)).map Except.ok ++
          [Except.ok (List.replicate 30 ⟨"c"⟩)]) =
      some (maxMessagesPerRequest * 2 + 30, none) := by
  have h := countChannelMessages_full_then_short
    [List.replicate 100 ⟨"a"⟩, List.replicate 100 ⟨"b"⟩]
    (List.replicate 30 ⟨"c"⟩)
    (by intro p hp; simp [maxMessagesPerRequest] at hp ⊢; rcases hp with h1 | h1 <;> simp [h1])
    (by simp [maxMessagesPerRequest])
  simpa using h

/-- Claim C3: if the page request at position i errors (here: `front` is
the i pages that succeeded before it, which the loop only continues past
when they are full), `countChannelMessages` returns the error and count 0
— no partial credit for the preceding pages and no retry (the responses
after the failing one are never requested). -/
theorem countChannelMessages_error_no_partial (front : List (List Message))
    (rest : List PageResponse)
    (hfront : ∀ p ∈ front, ¬ p.length < maxMessagesPerRequest) :
    countChannelMessages (front.map Except.ok ++ Except.error () :: rest) =
      some (0, some ()) := by
  unfold countChannelMessages
  rw [countLoop_skip_full front _ 0 hfront]
  rfl

/-- Witness for C3: three full pages then an error give (0, error). -/
theorem countChannelMessages_error_no_partial_witness :
    countChannelMessages
        ((List.replicate 3 (List.replicate 100 (⟨"m"⟩ : Message))).map Except.ok ++
          Except.error () :: [Except.ok []]) =
      some (0, some ()) :=
  countChannelMessages_error_no_partial
    (List.replicate 3 (List.replicate 100 ⟨"m"⟩)) [Except.ok []]
    (by intro p hp; simp_all [maxMessagesPerRequest])

/-- Whenever the loop returns an error, the accompanying count is 0. -/
lemma countLoop_error_zero (responses : List PageResponse) (acc n : Nat) (e : Unit)
    (h : countLoop responses acc = some (n, some e)) : n = 0 := by
  induction responses generalizing acc with
  | nil => simp [countLoop] at h
  | cons r rest ih =>
    cases r with
    | error err => simp [countLoop] at h; omega
    | ok msgs =>
      by_cases hlen : msgs.length < maxMessagesPerRequest
      · simp [countLoop, if_pos hlen] at h
      · simp only [countLoop, if_neg hlen] at h
        exact ih _ h

/-- Claim C10: whenever `countChannelMessages` returns a non-nil error,
the integer count returned alongside it is exactly 0: partial totals
accumulated before a failure are discarded. -/
theorem countChannelMessages_error_count_zero (responses : List PageResponse)
    (n : Nat) (e : Unit)
    (h : countChannelMessages responses = some (n, some e)) : n = 0 :=
  countLoop_error_zero responses 0 n e h

/-- Witness for C10: a full page followed by an error yields count 0. -/
theorem countChannelMessages_error_count_zero_witness :
    countChannelMessages [Except.ok (List.replicate 100 (⟨"m"⟩ : Message)),
      Except.error ()] = some (0, some ()) ∧ (0 : Nat) = 0 :=
  ⟨by decide, countChannelMessages_error_count_zero
    [Except.ok (List.replicate 100 ⟨"m"⟩), Except.error ()] 0 () (by decide)⟩

/-- Claim C6: a page with fewer than 100 entries unconditionally ends the
pagination (the result is fixed whatever responses would come after it),
and no other bound on iteration count exists: an upstream that keeps
returning full pages never lets the loop return (the loop exhausts every
finite response sequence of full pages and asks for more, which the
model reports as `none`). -/
theorem pagination_termination (front : List (List Message)) (short : List Message)
    (rest : List PageResponse)
    (hfront : ∀ p ∈ front, ¬ p.length < maxMessagesPerRequest)
    (hshort : short.length < maxMessagesPerRequest) :
    countChannelMessages (front.map Except.ok ++ Except.ok short :: rest) =
        some ((front.map List.length).sum + short.length, none) ∧
      countChannelMessages (front.map Except.ok) = none := by
  constructor
  · unfold countChannelMessages
    rw [countLoop_skip_full front _ 0 hfront]
    simp [countLoop, if_pos hshort]
  · unfold countChannelMessages
    rw [← List.append_nil (front.map Except.ok),
      countLoop_skip_full front [] 0 hfront]
    rfl

/-- Witness for C6: one full page then an empty page terminates with 100;
two full pages alone never terminate. -/
theorem pagination_termination_witness :
    countChannelMessages ([List.replicate 100 (⟨"m"⟩ : Message)].map Except.ok ++
        Except.ok [] :: [Except.error ()]) = some (100 + 0, none) ∧
      countChannelMessages ([List.replicate 100 (⟨"m"⟩ : Message)].map Except.ok) =
        none := by
  have h := pagination_termination [List.replicate 100 ⟨"m"⟩] [] [Except.error ()]
    (by intro p hp; simp_all [maxMessagesPerRequest])
    (by simp [maxMessagesPerRequest])
  simpa using h

/-- Channel kinds from discordgo; the filter in `updateMessageCount`
only distinguishes `ChannelTypeGuildText` from everything else. -/
inductive ChannelType
  | guildText
  | guildVoice
  | guildCategory
  | guildNews
  | other
deriving DecidableEq, Repr

/-- A Discord channel as used by the pipeline: identifier, display name
and kind (`discordgo.Channel` fields `ID`, `Name`, `Type`). -/
structure Channel where
  id : String
  name : String
  type : ChannelType
deriving DecidableEq, Repr

/-- The filtering loop of `updateMessageCount` (part of the Channel
Enumerator): drop every channel whose type is not guild-text and every
channel whose name is in the excluded set (Go: a `map[string]struct{}`
lookup, i.e. exact string membership); keep the rest in order. -/
def filterActiveChannels (channels : List Channel) (excludedChannels : List String) :
    List Channel :=
  channels.filter fun c =>
    decide (c.type = ChannelType.guildText ∧ c.name ∉ excludedChannels)

/-- `channelCountResult` from the source: channel name, count, error. -/
structure ChannelCountResult where
  channelName : String
  count : Nat
  err : Option Unit
deriving DecidableEq, Repr

/-- The gauge vector `discord_message_count{channel=...}`: a map from
label value to the last published count (`none` = never published). -/
abbrev MessageGauges := String → Option Nat

/-- The result-collection loop of `updateMessageCount`: for each result,
skip it if it carries an error, otherwise publish the count under the
channel-name label (`messageCountGauge.WithLabelValues(...).Set(...)`). -/
def collectResults (results : List ChannelCountResult) (g : MessageGauges) :
    MessageGauges :=
  results.foldl
    (fun acc r =>
      match r.err with
      | some _ => acc
      | none => Function.update acc r.channelName (some r.count))
    g

/-- A label no successful result carries is left untouched. -/
lemma collectResults_eq_of_forall_ne (results : List ChannelCountResult)
    (g : MessageGauges) (x : String)
    (h : ∀ r ∈ results, r.err = none → r.channelName ≠ x) :
    collectResults results g x = g x := by
  induction results generalizing g with
  | nil => rfl
  | cons r rest ih =>
    have hrest : ∀ s ∈ rest, s.err = none → s.channelName ≠ x := fun s hs =>
      h s (List.mem_cons_of_mem r hs)
    cases herr : r.err with
    | some e => simpa [collectResults, herr] using ih _ hrest
    | none =>
      have hne : r.channelName ≠ x := h r (List.mem_cons_self r rest) herr
      calc collectResults (r :: rest) g x
          = collectResults rest (Function.update g r.channelName (some r.count)) x := by
            simp [collectResults, herr]
        _ = Function.update g r.channelName (some r.count) x := ih _ hrest
        _ = g x := Function.update_noteq (Ne.symm hne) _ _

/-- With pairwise-distinct channel names, each successful result's label
ends up holding exactly that result's count. -/
lemma collectResults_success (results : List ChannelCountResult)
    (g : MessageGauges) (r : ChannelCountResult) (hmem : r ∈ results)
    (hnd : (results.map fun x => x.channelName).Nodup) (herr : r.err = none) :
    collectResults results g r.channelName = some r.count := by
  induction results generalizing g with
  | nil => cases hmem
  | cons s rest ih =>
    have hnd_rest : (rest.map fun x => x.channelName).Nodup :=
      (List.nodup_cons.mp hnd).2
    have hs_not : s.channelName ∉ rest.map fun x => x.channelName :=
      (List.nodup_cons.mp hnd).1
    rcases List.mem_cons.mp hmem with rfl | hmem_rest
    · have hrest : ∀ t ∈ rest, t.err = none → t.channelName ≠ r.channelName := by
        intro t ht _ hcontra
        exact hs_not (hcontra ▸ List.mem_map_of_mem (fun x => x.channelName) ht)
      have hfold := collectResults_eq_of_forall_ne rest
        (Function.update g r.channelName (some r.count)) r.channelName hrest
      calc collectResults (r :: rest) g r.channelName
          = collectResults rest (Function.update g r.channelName (some r.count))
              r.channelName := by simp [collectResults, herr]
        _ = Function.update g r.channelName (some r.count) r.channelName := hfold
        _ = some r.count := Function.update_same _ _ _
    · cases herr_s : s.err with
      | some e => simpa [collectResults, herr_s] using ih _ hmem_rest hnd_rest
      | none => simpa [collectResults, herr_s] using ih _ hmem_rest hnd_rest

/-- Claim C4: a channel whose counting failed in this cycle keeps the
gauge value it had after the previous cycle — its label is neither
overwritten, nor reset to zero, nor removed — while every successful
result of the cycle is published normally (channel names assumed
pairwise distinct, as one gauge label per channel presupposes). -/
theorem failed_channel_gauge_unchanged (results : List ChannelCountResult)
    (g : MessageGauges) (r : ChannelCountResult) (hmem : r ∈ results)
    (herr : r.err = some ())
    (hnd : (results.map fun x => x.channelName).Nodup) :
    collectResults results g r.channelName = g r.channelName ∧
      ∀ s ∈ results, s.err = none →
        collectResults results g s.channelName = some s.count := by
  constructor
  · apply collectResults_eq_of_forall_ne
    intro s hs hserr hcontra
    have hrs : s ≠ r := by intro h; rw [h, herr] at hserr; cases hserr
    exact hrs (List.inj_on_of_nodup_map hnd hs hmem hcontra)
  · intro s hs hserr
    exact collectResults_success results g s hs hnd hserr

/-- Witness for C4: result list with one failure and one success. -/
theorem failed_channel_gauge_unchanged_witness :
    collectResults [⟨"a", 7, some ()⟩, ⟨"b", 3, none⟩] (fun _ => some 42) "a" =
        some 42 ∧
      collectResults [⟨"a", 7, some ()⟩, ⟨"b", 3, none⟩] (fun _ => some 42) "b" =
        some 3 := by
  have h := failed_channel_gauge_unchanged
    [⟨"a", 7, some ()⟩, ⟨"b", 3, none⟩] (fun _ => some 42)
    ⟨"a", 7, some ()⟩ (by simp) rfl (by simp)
  exact ⟨h.1, h.2 ⟨"b", 3, none⟩ (by simp) rfl⟩

/-- The message-count phase downstream of enumeration: count each active
channel (the per-channel outcome is abstracted as an oracle `oc` giving
the pair `countChannelMessages` returns) and fold the results into the
gauges, exactly as `updateMessageCount` does. -/
def runMessagePhase (channels : List Channel) (excludedChannels : List String)
    (oc : Channel → Nat × Option Unit) (g : MessageGauges) : MessageGauges :=
  collectResults
    ((filterActiveChannels channels excludedChannels).map fun c =>
      ⟨c.name, (oc c).1, (oc c).2⟩) g

/-- Claim C5: the enumerator keeps exactly the channels that are
guild-text and not excluded, regardless of input ordering (membership is
characterised pointwise), and an excluded name never appears as a
published label: the whole message phase leaves the gauge of any
excluded name untouched. -/
theorem channel_enumerator_correct (channels : List Channel)
    (excludedChannels : List String) :
    (∀ c : Channel, c ∈ filterActiveChannels channels excludedChannels ↔
        c ∈ channels ∧ c.type = ChannelType.guildText ∧
          c.name ∉ excludedChannels) ∧
      ∀ (oc : Channel → Nat × Option Unit) (g : MessageGauges) (name : String),
        name ∈ excludedChannels →
          runMessagePhase channels excludedChannels oc g name = g name := by
  constructor
  · intro c
    simp [filterActiveChannels, List.mem_filter, and_assoc]
  · intro oc g name hname
    apply collectResults_eq_of_forall_ne
    intro r hr _ hcontra
    rcases List.mem_map.mp hr with ⟨c, hc, rfl⟩
    have : c.name ∉ excludedChannels := by
      have := (List.mem_filter.mp hc).2
      simp only [decide_eq_true_eq] at this
      exact this.2
    simp only at hcontra
    exact this (hcontra ▸ hname)

/-- Witness for C5: a voice channel and an excluded text channel are
dropped, a plain text channel is kept, and the excluded label keeps its
old gauge value. -/
theorem channel_enumerator_correct_witness :
    ((⟨"1", "dev", ChannelType.guildText⟩ : Channel) ∈
        filterActiveChannels
          [⟨"1", "dev", ChannelType.guildText⟩,
           ⟨"2", "voice-room", ChannelType.guildVoice⟩,
           ⟨"3", "general-archive", ChannelType.guildText⟩]
          ["general-archive"]) ∧
      runMessagePhase
          [⟨"1", "dev", ChannelType.guildText⟩,
           ⟨"2", "voice-room", ChannelType.guildVoice⟩,
           ⟨"3", "general-archive", ChannelType.guildText⟩]
          ["general-archive"] (fun _ => (5, none)) (fun _ => some 9)
          "general-archive" = some 9 := by
  have h := channel_enumerator_correct
    [⟨"1", "dev", ChannelType.guildText⟩,
     ⟨"2", "voice-room", ChannelType.guildVoice⟩,
     ⟨"3", "general-archive", ChannelType.guildText⟩]
    ["general-archive"]
  exact ⟨(h.1 ⟨"1", "dev", ChannelType.guildText⟩).mpr (by simp),
    h.2 (fun _ => (5, none)) (fun _ => some 9) "general-archive" (by simp)⟩

/-- The Go `strings.Split(s, ",")`: splits a character list at every
comma; n commas give n+1 components, empty components included; the
empty input gives the single empty component. -/
def splitComma : List Char → List (List Char)
  | [] => [[]]
  | c :: rest =>
    match splitComma rest, decide (c = ',') with
    | r, true => [] :: r
    | [], false => [[c]]
    | h :: t, false => (c :: h) :: t

/-- Whitespace as tested by Go `unicode.IsSpace` on the Latin-1 range
(the range relevant to channel names in configuration files). -/
def isSpaceChar (c : Char) : Bool :=
  c = ' ' || c = '\t' || c = '\n' || (c = Char.ofNat 11) ||
    (c = Char.ofNat 12) || c = '\r' || (c = Char.ofNat 0x85) ||
    (c = Char.ofNat 0xA0)

/-- The Go `strings.TrimSpace`: drop whitespace from both ends. -/
def trimSpace (cs : List Char) : List Char :=
  ((cs.dropWhile isSpaceChar).reverse.dropWhile isSpaceChar).reverse

/-- `parseExcludedChannels` from the source: empty string means no
exclusions; otherwise split on commas, trim whitespace from each piece,
and keep the pieces that are non-empty after trimming (the Go map
collapses duplicates; list membership below plays the role of map
membership). -/
def parseExcludedChannels (channelsStr : String) : List String :=
  if channelsStr = "" then []
  else
    ((splitComma channelsStr.data).map fun cs => String.mk (trimSpace cs)).filter
      fun s => s != ""

/-- Claim C9: the parsed exclusion set holds exactly the comma-separated
components of the input after whitespace trimming, minus those that are
empty after trimming; the empty input yields the empty set. -/
theorem parseExcludedChannels_correct (channelsStr : String) :
    (∀ x : String, x ∈ parseExcludedChannels channelsStr ↔
        ((∃ comp ∈ splitComma channelsStr.data,
            String.mk (trimSpace comp) = x) ∧ x ≠ "")) ∧
      parseExcludedChannels "" = [] := by
  refine ⟨fun x => ?_, rfl⟩
  by_cases hempty : channelsStr = ""
  · subst hempty
    constructor
    · intro h
      simp [parseExcludedChannels] at h
    · rintro ⟨⟨comp, hcomp, htrim⟩, hne⟩
      have hc : comp = [] := by
        have : splitComma ("".data) = [[]] := rfl
        rw [this] at hcomp
        simpa using hcomp
      subst hc
      exact (hne htrim.symm).elim
  · simp only [parseExcludedChannels, if_neg hempty, List.mem_filter,
      List.mem_map, bne_iff_ne, ne_eq]

/-- Witness for C9: a representative comma-separated string parses to
the trimmed non-empty components. -/
theorem parseExcludedChannels_correct_witness :
    ("general-archive" ∈ parseExcludedChannels " general-archive , ,bots" ↔
        ((∃ comp ∈ splitComma (" general-archive , ,bots").data,
            String.mk (trimSpace comp) = "general-archive") ∧
          ("general-archive" : String) ≠ "")) ∧
      parseExcludedChannels "" = [] :=
  ⟨(parseExcludedChannels_correct " general-archive , ,bots").1 "general-archive",
    (parseExcludedChannels_correct "x").2⟩

/-- `Config` from the source. -/
structure Config where
  token : String
  serverID : String
  excludedChannels : List String
deriving Repr

/-- The raw configuration file as viper sees it: whether reading the
file failed, and the three string keys. -/
structure RawConfig where
  readError : Bool
  token : String
  serverID : String
  excludeChannels : String
deriving Repr

/-- `loadConfig` from the source: a read failure, a missing token or a
missing serverID each yield an error (which `main` turns into
`log.Fatalf`, i.e. process exit); otherwise the parsed configuration. -/
def loadConfig (raw : RawConfig) : Except String Config :=
  if raw.readError then Except.error "error reading config file"
  else
    let config : Config :=
      ⟨raw.token, raw.serverID, parseExcludedChannels raw.excludeChannels⟩
    if raw.token = "" then Except.error "Discord token is required"
    else if raw.serverID = "" then Except.error "serverID is required"
    else Except.ok config

/-- The process-wide gauge state: the membership gauge and the
per-channel message-count gauge vector. -/
structure Gauges where
  members : Option Nat
  messages : MessageGauges

/-- Observable log events of one cycle.  `fatal` stands for
`log.Fatalf` (which exits the process); the other constructors stand
for the `log.Printf` calls of `updateMemberCount` and
`updateMessageCount`. -/
inductive LogEvent
  | failedGetGuildMembers
  | memberCount (n : Nat)
  | failedGetGuildChannels
  | noActiveChannels
  | failedCount (channelName : String)
  | channelCount (channelName : String) (n : Nat)
  | fatal (msg : String)
deriving DecidableEq, Repr

/-- The upstream responses one cycle sees: the `GuildMembers` result,
the `GuildChannels` result, and per channel the outcome of its
pagination (the pair `countChannelMessages` returns). -/
structure CycleEnv where
  members : Except Unit (List String)
  channels : Except Unit (List Channel)
  counts : Channel → Nat × Option Unit

/-- `updateMemberCount` from the source: on error log and return
leaving the gauge untouched; on success set the membership gauge to the
number of members fetched. -/
def updateMemberCountRun (env : CycleEnv) (g : Gauges) : Gauges × List LogEvent :=
  match env.members with
  | Except.error _ => (g, [LogEvent.failedGetGuildMembers])
  | Except.ok ms => (⟨some ms.length, g.messages⟩, [LogEvent.memberCount ms.length])

/-- The per-result log lines of the collection loop. -/
def resultLogs (results : List ChannelCountResult) : List LogEvent :=
  results.map fun r =>
    match r.err with
    | some _ => LogEvent.failedCount r.channelName
    | none => LogEvent.channelCount r.channelName r.count

/-- The results `processChannel` delivers for a list of channels: one
`channelCountResult` per channel, carrying name, count and error. -/
def channelResults (counts : Channel → Nat × Option Unit) (active : List Channel) :
    List ChannelCountResult :=
  active.map fun c => ⟨c.name, (counts c).1, (counts c).2⟩

/-- `updateMessageCount` from the source: on enumeration error log and
return; with zero eligible channels log and return; otherwise count
every active channel and fold the results into the gauges. -/
def updateMessageCountRun (config : Config) (env : CycleEnv) (g : Gauges) :
    Gauges × List LogEvent :=
  match env.channels with
  | Except.error _ => (g, [LogEvent.failedGetGuildChannels])
  | Except.ok channels =>
    if (filterActiveChannels channels config.excludedChannels).isEmpty then
      (g, [LogEvent.noActiveChannels])
    else
      (⟨g.members,
          collectResults
            (channelResults env.counts
              (filterActiveChannels channels config.excludedChannels))
            g.messages⟩,
        resultLogs
          (channelResults env.counts
            (filterActiveChannels channels config.excludedChannels)))

/-- One cycle of the collector loop: membership count first, then the
message-count phase, as in `startMetricsCollector`. -/
def runCycle (config : Config) (env : CycleEnv) (g : Gauges) :
    Gauges × List LogEvent :=
  let memberStep := updateMemberCountRun env g
  let messageStep := updateMessageCountRun config env memberStep.1
  (messageStep.1, memberStep.2 ++ messageStep.2)

/-- No per-result log line is fatal. -/
lemma fatal_not_mem_resultLogs (results : List ChannelCountResult) (m : String) :
    LogEvent.fatal m ∉ resultLogs results := by
  intro h
  rcases List.mem_map.mp h with ⟨r, _, hr⟩
  cases herr : r.err <;> simp [herr] at hr

/-- No membership-phase log line is fatal. -/
lemma fatal_not_mem_memberLogs (env : CycleEnv) (g : Gauges) (m : String) :
    LogEvent.fatal m ∉ (updateMemberCountRun env g).2 := by
  cases hm : env.members <;> simp [updateMemberCountRun, hm]

/-- No message-phase log line is fatal. -/
lemma fatal_not_mem_messageLogs (config : Config) (env : CycleEnv) (g : Gauges)
    (m : String) : LogEvent.fatal m ∉ (updateMessageCountRun config env g).2 := by
  cases hc : env.channels with
  | error e => simp [updateMessageCountRun, hc]
  | ok channels =>
    simp only [updateMessageCountRun, hc]
    split
    · simp
    · exact fatal_not_mem_resultLogs _ m

/-- The membership phase never touches the message gauges. -/
lemma updateMemberCountRun_messages (env : CycleEnv) (g : Gauges) :
    ((updateMemberCountRun env g).1).messages = g.messages := by
  cases hm : env.members <;> simp [updateMemberCountRun, hm]

/-- The message phase never touches the membership gauge. -/
lemma updateMessageCountRun_members (config : Config) (env : CycleEnv) (g : Gauges) :
    ((updateMessageCountRun config env g).1).members = g.members := by
  cases hc : env.channels with
  | error e => simp [updateMessageCountRun, hc]
  | ok channels =>
    simp only [updateMessageCountRun, hc]
    split
    · rfl
    · rfl

/-- Claim C7: every per-cycle error is contained and only logged — no
execution of a cycle emits a fatal log event, a failed membership fetch
leaves the membership gauge as it was, membership counting succeeds
whether or not channel enumeration fails, a failed enumeration aborts
only the message-count phase (message gauges untouched), and the only
errors that are fatal are configuration errors at startup. -/
theorem cycle_errors_contained (config : Config) (env : CycleEnv) (g : Gauges) :
    (∀ m, LogEvent.fatal m ∉ (runCycle config env g).2) ∧
      (env.members = Except.error () →
        (runCycle config env g).1.members = g.members) ∧
      (∀ ms, env.members = Except.ok ms →
        (runCycle config env g).1.members = some ms.length) ∧
      (env.channels = Except.error () →
        (runCycle config env g).1.messages = g.messages ∧
          LogEvent.failedGetGuildChannels ∈ (runCycle config env g).2) ∧
      (∀ raw : RawConfig, raw.readError = true ∨ raw.token = "" ∨ raw.serverID = "" →
        ∃ e, loadConfig raw = Except.error e) := by
  have hsplit2 : (runCycle config env g).2 =
      (updateMemberCountRun env g).2 ++
        (updateMessageCountRun config env (updateMemberCountRun env g).1).2 := rfl
  have hsplit1 : (runCycle config env g).1 =
      (updateMessageCountRun config env (updateMemberCountRun env g).1).1 := rfl
  refine ⟨?_, ?_, ?_, ?_, ?_⟩
  · intro m hmem
    rw [hsplit2] at hmem
    rcases List.mem_append.mp hmem with h | h
    · exact fatal_not_mem_memberLogs env g m h
    · exact fatal_not_mem_messageLogs config env _ m h
  · intro hm
    rw [hsplit1, updateMessageCountRun_members]
    simp [updateMemberCountRun, hm]
  · intro ms hm
    rw [hsplit1, updateMessageCountRun_members]
    simp [updateMemberCountRun, hm]
  · intro hc
    constructor
    · rw [hsplit1]
      simp [updateMessageCountRun, hc, updateMemberCountRun_messages]
    · rw [hsplit2]
      simp [updateMessageCountRun, hc]
  · intro raw hraw
    by_cases hread : raw.readError = true
    · exact ⟨"error reading config file", by simp [loadConfig, hread]⟩
    · by_cases htok : raw.token = ""
      · exact ⟨"Discord token is required", by simp [loadConfig, hread, htok]⟩
      · rcases hraw with h | h | h
        · exact absurd h hread
        · exact absurd h htok
        · exact ⟨"serverID is required", by simp [loadConfig, hread, htok, h]⟩

/-- Witness for C7: concrete failing cycle environment. -/
theorem cycle_errors_contained_witness :
    (runCycle ⟨"t", "s", []⟩
        ⟨Except.error (), Except.error (), fun _ => (0, none)⟩
        ⟨some 4, fun _ => some 7⟩).1.messages "x" = some 7 ∧
      (∃ e, loadConfig ⟨false, "", "s", ""⟩ = Except.error e) := by
  have h := cycle_errors_contained ⟨"t", "s", []⟩
    ⟨Except.error (), Except.error (), fun _ => (0, none)⟩
    ⟨some 4, fun _ => some 7⟩
  exact ⟨by rw [(h.2.2.2.1 rfl).1], h.2.2.2.2 ⟨false, "", "s", ""⟩ (Or.inr (Or.inl rfl))⟩

/-- `time.Minute` in nanoseconds. -/
def timeMinute : Nat := 60 * 1000000000

/-- Mirrors the Go constant `defaultUpdateInterval = 15 * time.Minute`. -/
def defaultUpdateInterval : Nat := 15 * timeMinute

/-- Start times of the collector cycles, from the loop shape of
`startMetricsCollector` (cycle body, then `time.Sleep(interval)`):
cycle 0 starts immediately, and each next cycle starts one fixed
interval after the previous cycle's end.  `dur n` is the duration of
cycle n's body (which the model leaves arbitrary). -/
def cycleStart (dur : Nat → Nat) : Nat → Nat
  | 0 => 0
  | n + 1 => cycleStart dur n + dur n + defaultUpdateInterval

/-- End time of cycle n. -/
def cycleEnd (dur : Nat → Nat) (n : Nat) : Nat := cycleStart dur n + dur n

/-- Claim C8: the first cycle runs immediately at process start; every
next cycle starts exactly one fixed 15-minute interval after the end of
the previous cycle (measured from its end, with no jitter and no
backoff, for every cycle index — the loop never stops), so consecutive
cycles never overlap; and within a cycle the membership phase runs
before the message-count phase. -/
theorem scheduler_timing (dur : Nat → Nat) :
    cycleStart dur 0 = 0 ∧
      (∀ n, cycleStart dur (n + 1) = cycleEnd dur n + defaultUpdateInterval) ∧
      defaultUpdateInterval = 15 * timeMinute ∧
      (∀ n, cycleEnd dur n < cycleStart dur (n + 1)) ∧
      ∀ (config : Config) (env : CycleEnv) (g : Gauges),
        (runCycle config env g).2 =
          (updateMemberCountRun env g).2 ++
            (updateMessageCountRun config env (updateMemberCountRun env g).1).2 := by
  refine ⟨rfl, fun n => rfl, rfl, fun n => ?_, fun config env g => rfl⟩
  have hpos : 0 < defaultUpdateInterval := by
    simp [defaultUpdateInterval, timeMinute]
  calc cycleEnd dur n < cycleEnd dur n + defaultUpdateInterval :=
        Nat.lt_add_of_pos_right hpos
    _ = cycleStart dur (n + 1) := rfl

/-- Status of one dispatched unit of work (one goroutine of
`updateMessageCount`): `idle` = spawned, blocked on `semaphore <-`;
`running` = permit held, inside `processChannel`; `finished` = result
sent on the results channel, permit still held (between the result send
and the deferred `<-semaphore`); `done` = permit released. -/
inductive WStatus
  | idle
  | running
  | finished
  | done
deriving DecidableEq, Repr

/-- True when the status holds one of the semaphore's permits. -/
def holdsPermit : WStatus → Bool
  | WStatus.running => true
  | WStatus.finished => true
  | _ => false

/-- True when the status is actively counting (inside `processChannel`). -/
def isCounting : WStatus → Bool
  | WStatus.running => true
  | _ => false

/-- True when the unit's result has been sent on the results channel. -/
def hasReported : WStatus → Bool
  | WStatus.finished => true
  | WStatus.done => true
  | _ => false

/-- Interleaving state of the worker pool for n eligible channels:
the status of each unit of work and the results sent so far (most
recent first; the collection loop consumes them in this arbitrary
arrival order). -/
structure DispatchState (n : Nat) where
  w : Fin n → WStatus
  sent : List (Fin n)

/-- Number of semaphore permits currently held. -/
def permitsHeld {n : Nat} (s : DispatchState n) : Nat :=
  (Finset.univ.filter fun i => holdsPermit (s.w i) = true).card

/-- Number of counting operations currently active. -/
def activeCounts {n : Nat} (s : DispatchState n) : Nat :=
  (Finset.univ.filter fun i => isCounting (s.w i) = true).card

/-- All units spawned and blocked on the semaphore, nothing sent. -/
def initState (n : Nat) : DispatchState n :=
  ⟨fun _ => WStatus.idle, []⟩

/-- One interleaving step of `updateMessageCount`'s worker pool with
semaphore capacity K: a unit acquires a permit (only when fewer than K
are held — `semaphore <- struct{}{}` blocks otherwise), or finishes
`processChannel` and sends its one result (success or failure alike:
`processChannel` always sends exactly one `channelCountResult`), or
releases its permit (the deferred `<-semaphore`). -/
inductive DStep (K : Nat) {n : Nat} : DispatchState n → DispatchState n → Prop
  | acquire (s : DispatchState n) (i : Fin n) (hidle : s.w i = WStatus.idle)
      (hperm : permitsHeld s < K) :
      DStep K s ⟨Function.update s.w i WStatus.running, s.sent⟩
  | complete (s : DispatchState n) (i : Fin n) (hrun : s.w i = WStatus.running) :
      DStep K s ⟨Function.update s.w i WStatus.finished, i :: s.sent⟩
  | release (s : DispatchState n) (i : Fin n) (hfin : s.w i = WStatus.finished) :
      DStep K s ⟨Function.update s.w i WStatus.done, s.sent⟩

/-- States reachable by the worker pool from its start. -/
def DReachable (K : Nat) {n : Nat} (s : DispatchState n) : Prop :=
  Relation.ReflTransGen (DStep K) (initState n) s

/-- Filtering the universe through an updated status function: the
filter set gains or loses exactly the updated index. -/
lemma filter_update_eq {n : Nat} (w : Fin n → WStatus) (i : Fin n) (b : WStatus)
    (p : WStatus → Bool) :
    (Finset.univ.filter fun j => p (Function.update w i b j) = true) =
      if p b = true then
        insert i ((Finset.univ.filter fun j => p (w j) = true).erase i)
      else (Finset.univ.filter fun j => p (w j) = true).erase i := by
  ext j
  by_cases hji : j = i
  · subst hji
    by_cases hb : p b = true <;> simp [hb, Function.update_same]
  · by_cases hb : p b = true <;>
      simp [hb, Function.update_noteq hji, hji]

/-- The pool invariant: at most K permits are held, and a unit's index
occurs in the sent results exactly once from the moment it reports,
never before; the number of results equals the number of units that
have reported. -/
def DInv (K : Nat) {n : Nat} (s : DispatchState n) : Prop :=
  permitsHeld s ≤ K ∧
    (∀ i, s.sent.count i = if hasReported (s.w i) = true then 1 else 0) ∧
    s.sent.length = (Finset.univ.filter fun i => hasReported (s.w i) = true).card

/-- The invariant holds at the start. -/
lemma DInv_init (K n : Nat) : DInv K (initState n) := by
  refine ⟨?_, ?_, ?_⟩
  · simp [permitsHeld, initState, holdsPermit]
  · intro i; simp [initState, hasReported]
  · simp [initState, hasReported]

/-- Every step preserves the invariant. -/
lemma DInv_step (K : Nat) {n : Nat} (s s' : DispatchState n)
    (hinv : DInv K s) (hstep : DStep K s s') : DInv K s' := by
  obtain ⟨hperm, hcount, hlen⟩ := hinv
  cases hstep with
  | acquire i hidle hlt =>
    have hrep : ∀ j, hasReported (Function.update s.w i WStatus.running j) =
        hasReported (s.w j) := by
      intro j
      by_cases hji : j = i
      · subst hji; simp [Function.update_same, hidle, hasReported]
      · simp [Function.update_noteq hji]
    refine ⟨?_, ?_, ?_⟩
    · show (Finset.univ.filter fun j =>
          holdsPermit (Function.update s.w i WStatus.running j) = true).card ≤ K
      rw [filter_update_eq]
      have hni : i ∉ Finset.univ.filter fun j => holdsPermit (s.w j) = true := by
        simp [Finset.mem_filter, hidle, holdsPermit]
      have hc : holdsPermit WStatus.running = true := rfl
      rw [if_pos hc, Finset.erase_eq_of_not_mem hni,
        Finset.card_insert_of_not_mem hni]
      exact hlt
    · intro j
      simp only [hrep]
      exact hcount j
    · simp only [hrep]
      exact hlen
  | complete i hrun =>
    have hrepi : hasReported (s.w i) = false := by rw [hrun]; rfl
    refine ⟨?_, ?_, ?_⟩
    · show (Finset.univ.filter fun j =>
          holdsPermit (Function.update s.w i WStatus.finished j) = true).card ≤ K
      rw [filter_update_eq]
      have hmi : i ∈ Finset.univ.filter fun j => holdsPermit (s.w j) = true := by
        simp [Finset.mem_filter, hrun, holdsPermit]
      have hc : holdsPermit WStatus.finished = true := rfl
      rw [if_pos hc, Finset.insert_erase hmi]
      exact hperm
    · intro j
      show List.count j (i :: s.sent) =
        if hasReported (Function.update s.w i WStatus.finished j) = true then 1
        else 0
      by_cases hji : j = i
      · rw [hji, Function.update_same]
        have h0 : s.sent.count i = 0 := by rw [hcount i, hrepi]; rfl
        simp [List.count_cons, h0, hasReported]
      · rw [Function.update_noteq hji]
        have hcc : (i :: s.sent).count j = s.sent.count j := by
          simp [List.count_cons, hji]
        rw [hcc]
        exact hcount j
    · show (i :: s.sent).length = (Finset.univ.filter fun j =>
          hasReported (Function.update s.w i WStatus.finished j) = true).card
      rw [filter_update_eq]
      have hni : i ∉ Finset.univ.filter fun j => hasReported (s.w j) = true := by
        simp [Finset.mem_filter, hrepi]
      have hc2 : hasReported WStatus.finished = true := rfl
      rw [if_pos hc2, Finset.erase_eq_of_not_mem hni,
        Finset.card_insert_of_not_mem hni, List.length_cons, hlen]
  | release i hfin =>
    have hrep : ∀ j, hasReported (Function.update s.w i WStatus.done j) =
        hasReported (s.w j) := by
      intro j
      by_cases hji : j = i
      · subst hji; simp [Function.update_same, hfin, hasReported]
      · simp [Function.update_noteq hji]
    refine ⟨?_, ?_, ?_⟩
    · show (Finset.univ.filter fun j =>
          holdsPermit (Function.update s.w i WStatus.done j) = true).card ≤ K
      rw [filter_update_eq]
      have hc : ¬ (holdsPermit WStatus.done = true) := by simp [holdsPermit]
      rw [if_neg hc]
      exact le_trans (Finset.card_erase_le) hperm
    · intro j
      simp only [hrep]
      exact hcount j
    · simp only [hrep]
      exact hlen

/-- The invariant holds in every reachable state. -/
lemma DInv_of_reachable (K : Nat) {n : Nat} (s : DispatchState n)
    (h : DReachable K s) : DInv K s := by
  induction h with
  | refl => exact DInv_init K n
  | tail hsteps hstep ih => exact DInv_step K _ _ ih hstep

/-- A terminal execution exists: process the units one at a time
(acquire, count, send, release), which needs at least one permit. -/
lemma DReachable_all_done (K n : Nat) (hK : 0 < K) :
    ∀ m, m ≤ n → ∃ sent : List (Fin n),
      DReachable K (⟨fun i => if i.val < m then WStatus.done else WStatus.idle,
          sent⟩ : DispatchState n) ∧
        (∀ i : Fin n, sent.count i = if i.val < m then 1 else 0) ∧
        sent.length = m := by
  intro m
  induction m with
  | zero =>
    intro _
    refine ⟨[], ?_, fun i => by simp, rfl⟩
    have hfun : (fun i : Fin n => if i.val < 0 then WStatus.done else WStatus.idle) =
        fun _ : Fin n => WStatus.idle := by
      funext i
      simp
    have hinit : (⟨fun i => if i.val < 0 then WStatus.done else WStatus.idle,
        ([] : List (Fin n))⟩ : DispatchState n) = initState n := by
      unfold initState
      rw [hfun]
    rw [hinit]
    exact Relation.ReflTransGen.refl
  | succ m ih =>
    intro hm1
    have hm : m < n := hm1
    obtain ⟨sent, hreach, hcount, hlen⟩ := ih (Nat.le_of_lt hm)
    have hival : (⟨m, hm⟩ : Fin n).val = m := rfl
    refine ⟨(⟨m, hm⟩ : Fin n) :: sent, ?_, ?_, by simp [hlen]⟩
    · have hw0 : (fun i : Fin n => if i.val < m then WStatus.done else WStatus.idle)
          ⟨m, hm⟩ = WStatus.idle := by simp
      have hempty : (Finset.univ.filter fun j : Fin n =>
          holdsPermit (if j.val < m then WStatus.done else WStatus.idle) = true) =
            ∅ := by
        apply Finset.filter_eq_empty_iff.mpr
        intro j _
        by_cases h : j.val < m <;> simp [h, holdsPermit]
      have hperm0 : permitsHeld (⟨fun i : Fin n =>
          if i.val < m then WStatus.done else WStatus.idle, sent⟩ :
            DispatchState n) < K := by
        unfold permitsHeld
        rw [hempty]
        simpa using hK
      have step1 := DStep.acquire (K := K)
        (⟨fun i : Fin n => if i.val < m then WStatus.done else WStatus.idle,
          sent⟩ : DispatchState n) ⟨m, hm⟩ hw0 hperm0
      have step2 := DStep.complete (K := K)
        (⟨Function.update
            (fun i : Fin n => if i.val < m then WStatus.done else WStatus.idle)
            ⟨m, hm⟩ WStatus.running, sent⟩ : DispatchState n) ⟨m, hm⟩
        (by simp)
      have step3 := DStep.release (K := K)
        (⟨Function.update
            (Function.update
              (fun i : Fin n => if i.val < m then WStatus.done else WStatus.idle)
              ⟨m, hm⟩ WStatus.running)
            ⟨m, hm⟩ WStatus.finished, (⟨m, hm⟩ : Fin n) :: sent⟩ :
          DispatchState n) ⟨m, hm⟩ (by simp)
      have hreach3 := ((hreach.tail step1).tail step2).tail step3
      have hstate : (⟨Function.update
          (Function.update
            (Function.update
              (fun i : Fin n => if i.val < m then WStatus.done else WStatus.idle)
              ⟨m, hm⟩ WStatus.running)
            ⟨m, hm⟩ WStatus.finished)
          ⟨m, hm⟩ WStatus.done, (⟨m, hm⟩ : Fin n) :: sent⟩ : DispatchState n) =
          ⟨fun i : Fin n => if i.val < m + 1 then WStatus.done else WStatus.idle,
            (⟨m, hm⟩ : Fin n) :: sent⟩ := by
        congr 1
        rw [Function.update_idem, Function.update_idem]
        funext j
        by_cases hji : j = (⟨m, hm⟩ : Fin n)
        · subst hji
          simp [Function.update_same]
        · rw [Function.update_noteq hji]
          have hjv : j.val ≠ m := fun hc => hji (Fin.ext hc)
          by_cases hlt : j.val < m
          · rw [if_pos hlt, if_pos (Nat.lt_succ_of_lt hlt)]
          · rw [if_neg hlt, if_neg (by omega)]
      rw [hstate] at hreach3
      exact hreach3
    · intro j
      by_cases hji : j = (⟨m, hm⟩ : Fin n)
      · subst hji
        have h0 : sent.count (⟨m, hm⟩ : Fin n) = 0 := by
          rw [hcount ⟨m, hm⟩]
          simp
        simp [List.count_cons, h0]
      · have hjv : j.val ≠ m := fun hc => hji (Fin.ext hc)
        have : ((⟨m, hm⟩ : Fin n) :: sent).count j = sent.count j := by
          simp [List.count_cons, hji]
        rw [this, hcount j]
        by_cases hlt : j.val < m
        · rw [if_pos hlt, if_pos (Nat.lt_succ_of_lt hlt)]
        · rw [if_neg hlt, if_neg (by omega)]

/-- Claim C1: the bounded dispatcher of `updateMessageCount` with
concurrency limit K (the source fixes K = `maxConcurrentChannels` = 5)
never has more than K counting operations active at once in any
reachable interleaving (each unit must acquire one of the K permits
before counting, and holds it until its deferred release, which runs
whether the count succeeded or failed); any completed run (all units
done) has delivered exactly one result per input channel, n results in
all, in no guaranteed order; and with at least one permit a completed
run is reachable. -/
theorem dispatcher_bounded_and_complete (K n : Nat) (hK : 0 < K) :
    maxConcurrentChannels = 5 ∧
      (∀ s : DispatchState n, DReachable K s → activeCounts s ≤ K) ∧
      (∀ s : DispatchState n, DReachable K s → (∀ i, s.w i = WStatus.done) →
        s.sent.length = n ∧ ∀ i, s.sent.count i = 1) ∧
      ∃ s : DispatchState n, DReachable K s ∧ (∀ i, s.w i = WStatus.done) ∧
        s.sent.length = n ∧ ∀ i, s.sent.count i = 1 := by
  refine ⟨rfl, ?_, ?_, ?_⟩
  · intro s hs
    obtain ⟨hperm, _, _⟩ := DInv_of_reachable K s hs
    refine le_trans ?_ hperm
    apply Finset.card_le_card
    intro j hj
    rw [Finset.mem_filter] at hj ⊢
    refine ⟨hj.1, ?_⟩
    cases hw : s.w j <;> rw [hw] at hj <;> simp_all [isCounting, holdsPermit]
  · intro s hs hdone
    obtain ⟨_, hcount, hlen⟩ := DInv_of_reachable K s hs
    constructor
    · rw [hlen]
      have : (Finset.univ.filter fun i => hasReported (s.w i) = true) =
          Finset.univ := by
        apply Finset.filter_true_of_mem
        intro i _
        rw [hdone i]
        rfl
      rw [this, Finset.card_univ, Fintype.card_fin]
    · intro i
      rw [hcount i, hdone i]
      rfl
  · obtain ⟨sent, hreach, hcount, hlen⟩ := DReachable_all_done K n hK n le_rfl
    refine ⟨_, hreach, ?_, hlen, ?_⟩
    · intro i
      simp [i.isLt]
    · intro i
      rw [hcount i, if_pos i.isLt]

/-- Witness for C1: with the source's permit count
(`maxConcurrentChannels` = 5) and two channels, a completed run exists
with exactly one result per channel. -/
theorem dispatcher_bounded_and_complete_witness :
    0 < maxConcurrentChannels ∧
      ∃ s : DispatchState 2, DReachable maxConcurrentChannels s ∧
        (∀ i, s.w i = WStatus.done) ∧
        s.sent.length = 2 ∧ ∀ i, s.sent.count i = 1 :=
  ⟨by decide,
    (dispatcher_bounded_and_complete maxConcurrentChannels 2 (by decide)).2.2.2⟩

end DiscordExporter
